import Mathlib

/-!
Verification of the dynamic-context-pruning plugin.

This file gives a shallow embedding of the plugin code (format adapters,
instruction injection, deduplication strategy, numeric-ID registry, request
handler and idle-time janitor) and proves the specified properties about it.

JavaScript dynamic values are modelled by explicit sum/option types:
an absent or non-string field is `none`, arbitrary unknown JS values are
`raw n` tags, and object spreads are modelled by record updates that keep
every other field.  Mutation of the data array in place is modelled by
returning the updated list.
-/

/-- Character-level model of JavaScript `String.prototype.toLowerCase`
(applied codepoint by codepoint, which is what the plugin relies on for
ASCII tool-call IDs and tool names). -/
def jsToLower (s : String) : String :=
  ⟨s.data.map Char.toLower⟩

/-- `leadsWith n h` holds when the char list `h` starts with `n`. -/
def leadsWith : List Char → List Char → Bool
  | [], _ => true
  | _ :: _, [] => false
  | a :: as, b :: bs => a == b && leadsWith as bs

/-- `includesChars n h` models JavaScript `h.includes(n)` on char lists. -/
def includesChars (needle : List Char) : List Char → Bool
  | [] => leadsWith needle []
  | c :: t => leadsWith needle (c :: t) || includesChars needle t

/-- Model of JavaScript `hay.includes(needle)`. -/
def strIncludes (hay needle : String) : Bool :=
  includesChars needle.data hay.data

-- ============================================================================
-- Tool metadata, parameters, plugin state
-- ============================================================================

/-- A primitive JSON parameter value. -/
inductive JPrim where
  | str (s : String)
  | num (n : Int)
  | bool (b : Bool)
  | null
deriving DecidableEq, Repr

/-- Modelled from the spec: a parsed tool-parameter object, as a key-value
record (the spec treats parameters as arbitrary structured values; the
observable the deduplication signature needs is structural equality up to
key order and serialization whitespace, which this representation and its
canonicalization capture). -/
abbrev JParams := List (String × JPrim)

/-- Lexicographic order on char lists, used to sort parameter keys. -/
def leChars : List Char → List Char → Bool
  | [], _ => true
  | _ :: _, [] => false
  | a :: as, b :: bs => if a = b then leChars as bs else decide (a < b)

/-- Lexicographic order on strings. -/
def strLe (a b : String) : Bool := leChars a.data b.data

/-- Ordered insertion of a key-value entry by key. -/
def insertEntry (a : String × JPrim) : JParams → JParams
  | [] => [a]
  | b :: bs => if strLe a.1 b.1 then a :: b :: bs else b :: insertEntry a bs

/-- Modelled from the spec: parameter canonicalization — sorting the
key-value entries by key makes the signature order-insensitive for
structurally-equal parameter objects. -/
def canonParams : JParams → JParams
  | [] => []
  | a :: as => insertEntry a (canonParams as)

/-- A cached ToolCallRecord value: tool name plus parsed parameters. -/
structure ToolMeta where
  tool : String
  parameters : Option JParams
deriving DecidableEq, Repr

/-- A tool output extracted from a request (fetch-wrapper/types.ts). -/
structure ToolOutput where
  id : String
  toolName : Option String
deriving DecidableEq, Repr

/-- Insertion-ordered map update matching JS `Map.prototype.set`:
overwrite in place when the key exists, append otherwise. -/
def mapSet (l : List (String × α)) (k : String) (v : α) : List (String × α) :=
  if l.any (fun p => p.1 == k) then
    l.map (fun p => if p.1 == k then (k, v) else p)
  else l ++ [(k, v)]

/-- The per-process plugin state consulted by the fetch-wrapper formats. -/
structure PluginState where
  toolParameters : List (String × ToolMeta)
  prunedIds : List (String × List String)
  googleToolCallMapping : List (String × List (String × String))
  lastSeenSessionId : Option String
deriving DecidableEq, Repr

/-- The fixed placeholder literal from fetch-wrapper/types.ts. -/
def PRUNED_CONTENT_MESSAGE : String :=
  "[Output removed to save context - information superseded or no longer needed]"

-- ============================================================================
-- OpenAI Chat / Anthropic message model
-- ============================================================================

/-- An arbitrary JS value used where the plugin only ever overwrites a field
with a string: `raw n` stands for whatever the provider put there. -/
inductive JsVal where
  | raw (n : Nat)
  | str (s : String)
deriving DecidableEq, Repr

/-- A content part of an OpenAI/Anthropic message.  `type` and `text` are the
observable string fields (`none` models absent or non-string values),
`toolUseId` models `tool_use_id`, `content` is the payload of a
`tool_result` part, and `extra` stands for all remaining fields that an
object spread preserves. -/
structure ChatPart where
  type : Option String
  text : Option String
  toolUseId : Option String
  content : JsVal
  extra : Nat
deriving DecidableEq, Repr

/-- The `content` field of an OpenAI/Anthropic message: a string, an array of
parts, or any other JS value (`other`). -/
inductive ChatContent where
  | str (s : String)
  | arr (parts : List ChatPart)
  | other (v : Nat)
deriving DecidableEq, Repr

/-- An OpenAI/Anthropic message.  `toolCallId` models `tool_call_id`
(`none` when absent), `toolCalls` models the successfully parsed
`tool_calls` of an assistant message (call ID with tool name and parsed
parameters; entries whose parameters fail to parse are absent), and
`extra` stands for the fields an object spread preserves. -/
structure ChatMsg where
  role : String
  content : ChatContent
  toolCallId : Option String
  toolCalls : List (String × String × Option JParams)
  extra : Nat
deriving DecidableEq, Repr

/-- JS truthiness of an optional string field (absent and empty are falsy). -/
def truthy : Option String → Bool
  | none => false
  | some s => s != ""

/-- From synth-instruction.ts: a message whose string content equals the
nudge text verbatim. -/
def isNudgeMessage (msg : ChatMsg) (nudgeText : String) : Bool :=
  match msg.content with
  | .str s => s == nudgeText
  | _ => false

/-- The part pushed by `injectSynth` in the array-content case:
`\x7b type: 'text', text: instruction \x7d`. -/
def mkTextPart (instruction : String) : ChatPart :=
  { type := some "text", text := some instruction, toolUseId := none,
    content := .raw 0, extra := 0 }

/-- The check `part?.type === 'text' && typeof part.text === 'string' &&
part.text.includes(instruction)` from `injectSynth`. -/
def partHasInstruction (instruction : String) (p : ChatPart) : Bool :=
  p.type == some "text" &&
    (match p.text with
     | some t => strIncludes t instruction
     | none => false)

/-- The backward scan of `injectSynth`, written over the reversed message
list: the head here is the last message of the request. -/
def injectSynthRev (instruction nudgeText : String) :
    List ChatMsg → Bool × List ChatMsg
  | [] => (false, [])
  | m :: rest =>
    if m.role == "user" && !(isNudgeMessage m nudgeText) then
      match m.content with
      | .str s =>
        if strIncludes s instruction then (false, m :: rest)
        else (true, { m with content := .str (s ++ "\n\n" ++ instruction) } :: rest)
      | .arr ps =>
        if ps.any (partHasInstruction instruction) then (false, m :: rest)
        else (true, { m with content := .arr (ps ++ [mkTextPart instruction]) } :: rest)
      | .other _ => (true, m :: rest)
    else
      let r := injectSynthRev instruction nudgeText rest
      (r.1, m :: r.2)

/-- From synth-instruction.ts: walks messages from the end backward to the
most recent real user turn (skipping nudge-only turns) and appends the
instruction there unless it is already present.  Returns the flag together
with the updated message list (the source mutates in place). -/
def injectSynth (messages : List ChatMsg) (instruction nudgeText : String) :
    Bool × List ChatMsg :=
  let r := injectSynthRev instruction nudgeText messages.reverse
  (r.1, r.2.reverse)

-- ============================================================================
-- OpenAI Chat / Anthropic format descriptor operations
-- ============================================================================

/-- From the openai-chat format descriptor: extracts tool outputs, resolving
the tool name through the cached ToolCallRecord when available. -/
def chatExtractToolOutputs (data : List ChatMsg) (state : PluginState) :
    List ToolOutput :=
  match data with
  | [] => []
  | m :: rest =>
    let fromTool : List ToolOutput :=
      match m.toolCallId with
      | some cid =>
        if m.role == "tool" && truthy m.toolCallId then
          [{ id := jsToLower cid,
             toolName := (state.toolParameters.lookup (jsToLower cid)).map (·.tool) }]
        else []
      | none => []
    let fromUser : List ToolOutput :=
      if m.role == "user" then
        match m.content with
        | .arr ps =>
          ps.filterMap (fun p =>
            match p.toolUseId with
            | some uid =>
              if p.type == some "tool_result" && truthy p.toolUseId then
                some { id := jsToLower uid,
                       toolName := (state.toolParameters.lookup (jsToLower uid)).map (·.tool) }
              else none
            | none => none)
        | _ => []
      else []
    fromTool ++ fromUser ++ chatExtractToolOutputs rest state

/-- One step of the openai-chat `replaceToolOutput` loop on a single message:
returns the replaced flag and the (possibly) updated message. -/
def chatReplaceMsg (toolIdLower prunedMessage : String) (m : ChatMsg) :
    Bool × ChatMsg :=
  let hit1 := m.role == "tool" && (m.toolCallId.map jsToLower == some toolIdLower)
  let v1 := if hit1 then { m with content := ChatContent.str prunedMessage } else m
  match m.role == "user", m.content with
  | true, .arr ps =>
    let results := ps.map (fun p =>
      if p.type == some "tool_result" && p.toolUseId.map jsToLower == some toolIdLower then
        (true, { p with content := JsVal.str prunedMessage })
      else (false, p))
    if results.any (·.1) then
      (true, { m with content := .arr (results.map (·.2)) })
    else (hit1, v1)
  | _, _ => (hit1, v1)

/-- From the openai-chat format descriptor: overwrites the content of every
entry matching the (case-insensitively compared) tool-call ID. -/
def chatReplaceToolOutput (data : List ChatMsg) (toolId prunedMessage : String) :
    Bool × List ChatMsg :=
  let lower := jsToLower toolId
  data.foldr (fun m acc =>
    let r := chatReplaceMsg lower prunedMessage m
    (r.1 || acc.1, r.2 :: acc.2)) (false, [])

/-- From the openai-chat format descriptor: cheap existence check for tool
outputs. -/
def chatHasToolOutputs (data : List ChatMsg) : Bool :=
  data.any (fun m =>
    m.role == "tool" ||
      (m.role == "user" &&
        match m.content with
        | .arr ps => ps.any (fun p => p.type == some "tool_result")
        | _ => false))

/-- From synth-instruction.ts: counts tool results in OpenAI/Anthropic
messages. -/
def countToolResults (messages : List ChatMsg) : Nat :=
  messages.foldl (fun count m =>
    if m.role == "tool" then count + 1
    else if m.role == "user" then
      match m.content with
      | .arr ps => count + (ps.filter (fun p => p.type == some "tool_result")).length
      | _ => count
    else count) 0

-- ============================================================================
-- Google/Gemini format model
-- ============================================================================

/-- The `response` field of a Gemini function-response part: either whatever
the provider put there (`raw`) or the object the replacement writes,
carrying the function name and the placeholder content. -/
inductive RespVal where
  | raw (n : Nat)
  | replaced (name : Option String) (content : String)
deriving DecidableEq, Repr

/-- A Gemini `functionResponse` object; `extra` stands for the fields an
object spread preserves (such as a thought signature). -/
structure FuncResponse where
  name : Option String
  response : RespVal
  extra : Nat
deriving DecidableEq, Repr

/-- A part of a Gemini content entry. -/
structure GemPart where
  functionResponse : Option FuncResponse
  text : Option String
  extra : Nat
deriving DecidableEq, Repr

/-- The `parts` field of a Gemini content: an array of parts or any other
JS value. -/
inductive GemParts where
  | arr (l : List GemPart)
  | other (n : Nat)
deriving DecidableEq, Repr

/-- A Gemini content entry. -/
structure GemContent where
  role : String
  parts : GemParts
  extra : Nat
deriving DecidableEq, Repr

/-- From synth-instruction.ts: a Gemini content whose single part carries
exactly the nudge text. -/
def isNudgeContentGemini (content : GemContent) (nudgeText : String) : Bool :=
  match content.parts with
  | .arr [p] => p.text == some nudgeText
  | _ => false

/-- The part pushed by `injectSynthGemini`: `\x7b text: instruction \x7d`. -/
def mkGemTextPart (instruction : String) : GemPart :=
  { functionResponse := none, text := some instruction, extra := 0 }

/-- The check `part?.text && typeof part.text === 'string' &&
part.text.includes(instruction)` from `injectSynthGemini` (note the
truthiness test on the text itself). -/
def gemPartHasInstruction (instruction : String) (p : GemPart) : Bool :=
  match p.text with
  | some t => t != "" && strIncludes t instruction
  | none => false

/-- The backward scan of `injectSynthGemini`, over the reversed content
list. -/
def injectSynthGeminiRev (instruction nudgeText : String) :
    List GemContent → Bool × List GemContent
  | [] => (false, [])
  | c :: rest =>
    match c.parts with
    | .arr ps =>
      if c.role == "user" then
        if isNudgeContentGemini c nudgeText then
          let r := injectSynthGeminiRev instruction nudgeText rest
          (r.1, c :: r.2)
        else if ps.any (gemPartHasInstruction instruction) then (false, c :: rest)
        else (true, { c with parts := .arr (ps ++ [mkGemTextPart instruction]) } :: rest)
      else
        let r := injectSynthGeminiRev instruction nudgeText rest
        (r.1, c :: r.2)
    | .other _ =>
      let r := injectSynthGeminiRev instruction nudgeText rest
      (r.1, c :: r.2)

/-- From synth-instruction.ts: Gemini variant of the synthetic-instruction
injection. -/
def injectSynthGemini (contents : List GemContent) (instruction nudgeText : String) :
    Bool × List GemContent :=
  let r := injectSynthGeminiRev instruction nudgeText contents.reverse
  (r.1, r.2.reverse)

/-- From gemini.ts: picks the first session entry of
`state.googleToolCallMapping` whose mapping is non-empty. -/
def firstNonEmptyMapping : List (String × List (String × String)) →
    Option (List (String × String))
  | [] => none
  | (_, m) :: rest => if m.length > 0 then some m else firstNonEmptyMapping rest

/-- Per-tool-name occurrence counter lookup (JS `counters.get(name) || 0`). -/
def counterGet (l : List (String × Nat)) (k : String) : Nat :=
  (l.lookup k).getD 0

/-- The left-to-right scan of `extractToolOutputs` over the parts of one
content entry, threading the per-tool-name occurrence counters. -/
def geminiExtractParts (positionMapping : List (String × String)) :
    List GemPart → List (String × Nat) → List ToolOutput × List (String × Nat)
  | [], counters => ([], counters)
  | p :: ps, counters =>
    match p.functionResponse with
    | some fr =>
      match fr.name with
      | some nm =>
        let funcName := jsToLower nm
        if funcName != "" then
          let idx := counterGet counters funcName
          let counters2 := mapSet counters funcName (idx + 1)
          let key := funcName ++ ":" ++ toString idx
          match positionMapping.lookup key with
          | some toolCallId =>
            if toolCallId != "" then
              let r := geminiExtractParts positionMapping ps counters2
              ({ id := jsToLower toolCallId, toolName := some funcName } :: r.1, r.2)
            else geminiExtractParts positionMapping ps counters2
          | none => geminiExtractParts positionMapping ps counters2
        else geminiExtractParts positionMapping ps counters
      | none => geminiExtractParts positionMapping ps counters
    | none => geminiExtractParts positionMapping ps counters

/-- The scan of `extractToolOutputs` over the whole Gemini data array,
counters carried across content entries. -/
def geminiExtractGo (positionMapping : List (String × String)) :
    List GemContent → List (String × Nat) → List ToolOutput
  | [], _ => []
  | c :: rest, counters =>
    match c.parts with
    | .other _ => geminiExtractGo positionMapping rest counters
    | .arr ps =>
      let r := geminiExtractParts positionMapping ps counters
      r.1 ++ geminiExtractGo positionMapping rest r.2

/-- From gemini.ts: position-based extraction of tool outputs; returns
nothing when no non-empty position mapping exists. -/
def geminiExtractToolOutputs (data : List GemContent) (state : PluginState) :
    List ToolOutput :=
  match firstNonEmptyMapping state.googleToolCallMapping with
  | none => []
  | some positionMapping => geminiExtractGo positionMapping data []

/-- The left-to-right scan of `replaceToolOutput` over the parts of one
content entry: the identical counting algorithm as extraction, overwriting
the response payload of the matching occurrence. -/
def geminiReplaceParts (positionMapping : List (String × String))
    (toolIdLower prunedMessage : String) :
    List GemPart → List (String × Nat) → (Bool × List GemPart) × List (String × Nat)
  | [], counters => ((false, []), counters)
  | p :: ps, counters =>
    let step : (Bool × GemPart) × List (String × Nat) :=
      match p.functionResponse with
      | some fr =>
        match fr.name with
        | some nm =>
          let funcName := jsToLower nm
          if funcName != "" then
            let idx := counterGet counters funcName
            let counters2 := mapSet counters funcName (idx + 1)
            let key := funcName ++ ":" ++ toString idx
            match positionMapping.lookup key with
            | some mappedToolId =>
              if jsToLower mappedToolId == toolIdLower then
                let fr2 : FuncResponse :=
                  { fr with response := RespVal.replaced fr.name prunedMessage }
                ((true, { p with functionResponse := some fr2 }), counters2)
              else ((false, p), counters2)
            | none => ((false, p), counters2)
          else ((false, p), counters)
        | none => ((false, p), counters)
      | none => ((false, p), counters)
    let rest := geminiReplaceParts positionMapping toolIdLower prunedMessage ps step.2
    ((step.1.1 || rest.1.1, step.1.2 :: rest.1.2), rest.2)

/-- The scan of `replaceToolOutput` over the whole Gemini data array. -/
def geminiReplaceGo (positionMapping : List (String × String))
    (toolIdLower prunedMessage : String) :
    List GemContent → List (String × Nat) → Bool × List GemContent
  | [], _ => (false, [])
  | c :: rest, counters =>
    match c.parts with
    | .other _ =>
      let r := geminiReplaceGo positionMapping toolIdLower prunedMessage rest counters
      (r.1, c :: r.2)
    | .arr ps =>
      let pr := geminiReplaceParts positionMapping toolIdLower prunedMessage ps counters
      let contentModified := pr.1.1
      let c2 := if contentModified then { c with parts := .arr pr.1.2 } else c
      let r := geminiReplaceGo positionMapping toolIdLower prunedMessage rest pr.2
      (contentModified || r.1, c2 :: r.2)

/-- From gemini.ts: position-based replacement of a pruned tool output. -/
def geminiReplaceToolOutput (data : List GemContent) (toolId prunedMessage : String)
    (state : PluginState) : Bool × List GemContent :=
  match firstNonEmptyMapping state.googleToolCallMapping with
  | none => (false, data)
  | some positionMapping =>
    geminiReplaceGo positionMapping (jsToLower toolId) prunedMessage data []

/-- From gemini.ts: cheap existence check for function-response parts. -/
def geminiHasToolOutputs (data : List GemContent) : Bool :=
  data.any (fun c =>
    match c.parts with
    | .arr ps => ps.any (fun p => p.functionResponse.isSome)
    | .other _ => false)

-- ============================================================================
-- Numeric-ID registry (id-mapping.ts)
-- ============================================================================

/-- The per-session numeric-ID registry. -/
structure IdMapping where
  numericToActual : List (Nat × String)
  actualToNumeric : List (String × Nat)
  nextId : Nat
deriving DecidableEq, Repr

/-- The fresh mapping created by `getSessionMapping`. -/
def emptyIdMapping : IdMapping :=
  { numericToActual := [], actualToNumeric := [], nextId := 1 }

/-- From id-mapping.ts: returns the existing numeric ID for `actualId`, or
assigns `nextId` and increments it.  State is passed explicitly. -/
def getOrCreateNumericId (m : IdMapping) (actualId : String) : Nat × IdMapping :=
  match m.actualToNumeric.lookup actualId with
  | some n => (n, m)
  | none =>
    (m.nextId,
     { numericToActual := m.numericToActual ++ [(m.nextId, actualId)],
       actualToNumeric := m.actualToNumeric ++ [(actualId, m.nextId)],
       nextId := m.nextId + 1 })

/-- From id-mapping.ts: pure lookup of the numeric ID for an actual ID. -/
def getNumericId (m : IdMapping) (actualId : String) : Option Nat :=
  m.actualToNumeric.lookup actualId

/-- From id-mapping.ts: pure lookup of the actual ID for a numeric ID. -/
def getActualId (m : IdMapping) (numericId : Nat) : Option String :=
  m.numericToActual.lookup numericId

/-- From id-mapping.ts: gets or lazily creates the per-session mapping. -/
def getSessionMapping (maps : List (String × IdMapping)) (sessionId : String) :
    IdMapping × List (String × IdMapping) :=
  match maps.lookup sessionId with
  | some m => (m, maps)
  | none => (emptyIdMapping, maps ++ [(sessionId, emptyIdMapping)])

/-- Session-level `getOrCreateNumericId`, threading the process-wide
per-session mapping table. -/
def getOrCreateNumericIdS (maps : List (String × IdMapping))
    (sessionId actualId : String) : Nat × List (String × IdMapping) :=
  let g := getSessionMapping maps sessionId
  let r := getOrCreateNumericId g.1 actualId
  (r.1, mapSet g.2 sessionId r.2)

/-- Presents a sequence of actual IDs to the registry in order, collecting
the assigned numeric IDs. -/
def runIds (m : IdMapping) : List String → List Nat × IdMapping
  | [] => ([], m)
  | a :: rest =>
    let r := getOrCreateNumericId m a
    let rr := runIds r.2 rest
    (r.1 :: rr.1, rr.2)

-- ============================================================================
-- Deduplication strategy and strategy runner
-- ============================================================================

/-- Modelled from the spec: the call signature used by the deduplication
strategy — the tool name together with the canonicalized parameters (the
deduplication module itself is not among the provided sources; this follows
section 4.2 of the spec). -/
def callSignature (md : ToolMeta) : String × Option JParams :=
  (md.tool, md.parameters.map canonParams)

/-- Modelled from the spec: the group-and-keep-last scan of the
deduplication strategy.  A candidate is emitted as pruned exactly when it
has a signature, its tool is not protected, and a chronologically later
candidate has the same signature (so within each duplicate group only the
last ID is retained). -/
def dedupGo (sigOf : String → Option (String × Option JParams))
    (isProt : String → Bool) : List String → List String
  | [] => []
  | c :: rest =>
    let tail := dedupGo sigOf isProt rest
    match sigOf c with
    | none => tail
    | some s =>
      if !isProt c && rest.any (fun d => decide (sigOf d = some s)) then c :: tail
      else tail

/-- Modelled from the spec: the deduplication strategy detect function
(tool metadata cache, chronological candidate IDs, protected tool names). -/
def deduplicationDetect (toolMetadata : List (String × ToolMeta))
    (unprunedIds : List String) (protectedTools : List String) : List String :=
  dedupGo
    (fun id => (toolMetadata.lookup id).map callSignature)
    (fun id =>
      match toolMetadata.lookup id with
      | some md => protectedTools.contains md.tool
      | none => false)
    unprunedIds

/-- A strategy detect result (strategies/types). -/
structure StrategyResult where
  prunedIds : List String
deriving DecidableEq, Repr

/-- A pruning strategy: name plus detect function. -/
structure PruningStrategy where
  name : String
  detect : List (String × ToolMeta) → List String → List String → StrategyResult

/-- The deduplication strategy record. -/
def deduplicationStrategy : PruningStrategy :=
  { name := "deduplication",
    detect := fun md ids prot => { prunedIds := deduplicationDetect md ids prot } }

/-- From strategies/index.ts: all available strategies. -/
def ALL_STRATEGIES : List PruningStrategy := [deduplicationStrategy]

/-- JS `Set.prototype.add` on an insertion-ordered list. -/
def setAdd (l : List String) (a : String) : List String :=
  if l.contains a then l else l ++ [a]

/-- From strategies/index.ts: the strategy loop — each strategy sees only
the candidates not already claimed by an earlier one. -/
def runStrategiesGo (toolMetadata : List (String × ToolMeta))
    (protectedTools : List String) :
    List PruningStrategy → List String → List String →
      List (String × StrategyResult) → List String × List (String × StrategyResult)
  | [], _, acc, byStrategy => (acc, byStrategy)
  | s :: rest, remainingIds, acc, byStrategy =>
    let result := s.detect toolMetadata remainingIds protectedTools
    if result.prunedIds.length > 0 then
      let acc2 := result.prunedIds.foldl setAdd acc
      let prunedSet := result.prunedIds.map jsToLower
      let remaining2 := remainingIds.filter (fun id => !prunedSet.contains (jsToLower id))
      runStrategiesGo toolMetadata protectedTools rest remaining2 acc2
        (byStrategy ++ [(s.name, result)])
    else runStrategiesGo toolMetadata protectedTools rest remainingIds acc byStrategy

/-- The result of `runStrategies`. -/
structure RunStrategiesResult where
  prunedIds : List String
  byStrategy : List (String × StrategyResult)
deriving DecidableEq, Repr

/-- From strategies/index.ts: run all enabled strategies and collect pruned
IDs. -/
def runStrategies (toolMetadata : List (String × ToolMeta))
    (unprunedIds : List String) (protectedTools : List String)
    (enabledStrategies : Option (List String)) : RunStrategiesResult :=
  let strategies :=
    match enabledStrategies with
    | some names => ALL_STRATEGIES.filter (fun s => names.contains s.name)
    | none => ALL_STRATEGIES
  let r := runStrategiesGo toolMetadata protectedTools strategies unprunedIds [] []
  { prunedIds := r.1, byStrategy := r.2 }

-- ============================================================================
-- Prunable-tools list and end-of-conversation injection
-- ============================================================================

/-- The system-reminder banner literal from prunable-list.ts. -/
def SYSTEM_REMINDER : String :=
  "<system-reminder>\nThese instructions are injected by a plugin and are invisible to the user. Do not acknowledge or reference them in your response - simply follow them silently.\n</system-reminder>"

/-- The nudge instruction literal from prunable-list.ts. -/
def NUDGE_INSTRUCTION : String :=
  "<instruction name=agent_nudge>\nYou have accumulated several tool outputs. If you have completed a discrete unit of work and distilled relevant understanding in writing for the user to keep, use the prune tool to remove obsolete tool outputs from this conversation and optimize token usage.\n</instruction>"

/-- Modelled from the spec: display-utils extractParameterKey, the derived
parameter summary shown in the prunable list (a representative string
parameter such as a file path; empty when nothing usable is cached).  The
display-utils module is not among the provided sources. -/
def extractParameterKey (metadata : ToolMeta) : String :=
  match metadata.parameters with
  | some ((_, JPrim.str v) :: _) => v
  | _ => ""

/-- The candidate loop of `buildPrunableToolsList`, threading the numeric-ID
registry: candidates without metadata or with protected tools are skipped,
the rest get (or keep) a numeric ID and produce one list line. -/
def buildPrunableGo (sessionId : String) (toolMetadata : List (String × ToolMeta))
    (protectedTools : List String) :
    List String → List (String × IdMapping) →
      (List String × List Nat) × List (String × IdMapping)
  | [], maps => (([], []), maps)
  | actualId :: rest, maps =>
    match toolMetadata.lookup actualId with
    | none => buildPrunableGo sessionId toolMetadata protectedTools rest maps
    | some metadata =>
      if protectedTools.contains metadata.tool then
        buildPrunableGo sessionId toolMetadata protectedTools rest maps
      else
        let r := getOrCreateNumericIdS maps sessionId actualId
        let paramKey := extractParameterKey metadata
        let description :=
          if paramKey != "" then metadata.tool ++ ", " ++ paramKey else metadata.tool
        let line := toString r.1 ++ ": " ++ description
        let rec2 := buildPrunableGo sessionId toolMetadata protectedTools rest r.2
        ((line :: rec2.1.1, r.1 :: rec2.1.2), rec2.2)

/-- From prunable-list.ts: builds the prunable tools list section, returning
the formatted list, the numeric IDs, and the updated registry. -/
def buildPrunableToolsList (sessionId : String) (unprunedToolCallIds : List String)
    (toolMetadata : List (String × ToolMeta)) (protectedTools : List String)
    (maps : List (String × IdMapping)) :
    (String × List Nat) × List (String × IdMapping) :=
  let r := buildPrunableGo sessionId toolMetadata protectedTools unprunedToolCallIds maps
  if r.1.1.length == 0 then (("", []), r.2)
  else
    (("<prunable-tools>\n" ++ String.intercalate "\n" r.1.1 ++ "\n</prunable-tools>",
      r.1.2), r.2)

/-- From prunable-list.ts: builds the end-of-conversation injection — the
system reminder, the nudge when active, and the prunable tools list; empty
when there is no prunable list. -/
def buildEndInjection (prunableList : String) (includeNudge : Bool) : String :=
  if prunableList == "" then ""
  else
    let parts := [SYSTEM_REMINDER]
    let parts := if includeNudge then parts ++ [NUDGE_INSTRUCTION] else parts
    let parts := parts ++ [prunableList]
    String.intercalate "\n\n" parts

/-- From prunable-list.ts: appends a trailing user message carrying the
injection (OpenAI/Anthropic variant); no-op on an empty injection. -/
def injectPrunableList (messages : List ChatMsg) (injection : String) :
    Bool × List ChatMsg :=
  if injection == "" then (false, messages)
  else
    (true, messages ++
      [{ role := "user", content := .str injection, toolCallId := none,
         toolCalls := [], extra := 0 }])

/-- From prunable-list.ts: Gemini variant — appends a trailing user content
with a single text part. -/
def injectPrunableListGemini (contents : List GemContent) (injection : String) :
    Bool × List GemContent :=
  if injection == "" then (false, contents)
  else
    (true, contents ++ [{ role := "user", parts := .arr [mkGemTextPart injection], extra := 0 }])

-- ============================================================================
-- Tool tracker and caching
-- ============================================================================

/-- The per-session tool tracker from synth-instruction.ts.  `getToolName`
models the optional callback resolving a call ID to a tool name. -/
structure ToolTracker where
  seenToolResultIds : List String
  toolResultCount : Nat
  skipNextIdle : Bool
  getToolName : String → Option String

/-- From synth-instruction.ts: a fresh tracker. -/
def createToolTracker : ToolTracker :=
  { seenToolResultIds := [], toolResultCount := 0, skipNextIdle := false,
    getToolName := fun _ => none }

/-- Modelled from the spec: tool-cache.ts `cacheToolParametersFromMessages` —
scans assistant-authored tool invocations in the data array and upserts
ToolCallRecords (tool name plus parsed parameters) keyed by the normalized
call ID; malformed parameter payloads never raise and are simply skipped
(they are absent from the parsed `toolCalls`).  The tool-cache module is
not among the provided sources. -/
def cacheToolParametersFromMessages (data : List ChatMsg) (state : PluginState) :
    PluginState :=
  { state with
    toolParameters :=
      data.foldl (fun cache m =>
        if m.role == "assistant" then
          m.toolCalls.foldl
            (fun cache tc =>
              mapSet cache (jsToLower tc.1) { tool := tc.2.1, parameters := tc.2.2 })
            cache
        else cache) state.toolParameters }

/-- The tool-result IDs present in an OpenAI/Anthropic data array, in order
(role `tool` entries and `tool_result` parts of user entries) together
with the per-entry tool name when the wire format carries one. -/
def chatToolResultIds (data : List ChatMsg) : List String :=
  data.foldl (fun acc m =>
    let acc :=
      match m.toolCallId with
      | some cid => if m.role == "tool" && truthy m.toolCallId then acc ++ [cid] else acc
      | none => acc
    if m.role == "user" then
      match m.content with
      | .arr ps =>
        acc ++ ps.filterMap (fun p =>
          match p.toolUseId with
          | some uid =>
            if p.type == some "tool_result" && truthy p.toolUseId then some uid else none
          | none => none)
      | _ => acc
    else acc) []

/-- Modelled from the spec: synth-instruction.ts `trackNewToolResults` —
increments the tracker's since-last-prune counter for every tool-result
entry whose tool name is not protected and whose ID has not been counted
before (IDs are remembered in the tracker's seen set, so replays do not
double count).  Returns the number of new results with the updated
tracker.  The function body is not among the provided sources. -/
def trackNewToolResults (ids : List String) (tracker : ToolTracker)
    (protectedTools : List String) : Nat × ToolTracker :=
  ids.foldl (fun acc cid =>
    let tracker := acc.2
    let key := jsToLower cid
    if tracker.seenToolResultIds.contains key then acc
    else
      let isProtected :=
        match tracker.getToolName cid with
        | some t => protectedTools.contains t
        | none => false
      if isProtected then
        (acc.1, { tracker with seenToolResultIds := tracker.seenToolResultIds ++ [key] })
      else
        (acc.1 + 1,
         { tracker with
           seenToolResultIds := tracker.seenToolResultIds ++ [key],
           toolResultCount := tracker.toolResultCount + 1 })) (0, tracker)

/-- The function-response occurrence list of a Gemini data array (tool names
in order), used by the Gemini tracker variant. -/
def geminiToolResultNames (data : List GemContent) : List String :=
  data.foldl (fun acc c =>
    match c.parts with
    | .arr ps =>
      acc ++ ps.filterMap (fun p =>
        match p.functionResponse with
        | some fr => fr.name
        | none => none)
    | .other _ => acc) []

-- ============================================================================
-- Sessions and pruned-ID aggregation (fetch-wrapper/types.ts)
-- ============================================================================

/-- A session record from the external session accessor. -/
structure SessionInfo where
  id : String
  parentID : Option String
  title : Option String
deriving DecidableEq, Repr

/-- From fetch-wrapper/types.ts: the most recent active (non-subagent)
session — the first listed session without a parent. -/
def getMostRecentActiveSession (allSessions : List SessionInfo) :
    Option SessionInfo :=
  (allSessions.filter (fun s => !(truthy s.parentID))).head?

/-- From fetch-wrapper/types.ts: collects the (restored) pruned IDs of the
current active session, lowercased, into an insertion-ordered set.  The
`state` argument is the plugin state after `ensureSessionRestored` (the
persistence module is an external collaborator). -/
def getAllPrunedIds (allSessions : List SessionInfo) (state : PluginState) :
    List String :=
  match getMostRecentActiveSession allSessions with
  | some s => (((state.prunedIds.lookup s.id).getD []).map jsToLower).foldl setAdd []
  | none => []

-- ============================================================================
-- Format descriptors and the generic handler (fetch-wrapper/handler.ts)
-- ============================================================================

/-- The format-descriptor interface (fetch-wrapper/types.ts), polymorphic in
the element type of the data array. -/
structure FormatOps (δ : Type) where
  name : String
  cacheToolParameters : List δ → PluginState → PluginState
  injectSynth : List δ → String → String → Bool × List δ
  trackNewToolResults : List δ → ToolTracker → List String → Nat × ToolTracker
  injectPrunableList : List δ → String → Bool × List δ
  extractToolOutputs : List δ → PluginState → List ToolOutput
  replaceToolOutput : List δ → String → String → PluginState → Bool × List δ
  hasToolOutputs : List δ → Bool

/-- The openai-chat format descriptor record. -/
def openaiChatFormat : FormatOps ChatMsg :=
  { name := "openai-chat",
    cacheToolParameters := cacheToolParametersFromMessages,
    injectSynth := injectSynth,
    trackNewToolResults := fun data tracker prot =>
      trackNewToolResults (chatToolResultIds data) tracker prot,
    injectPrunableList := injectPrunableList,
    extractToolOutputs := chatExtractToolOutputs,
    replaceToolOutput := fun data toolId msg _ => chatReplaceToolOutput data toolId msg,
    hasToolOutputs := chatHasToolOutputs }

/-- The gemini format descriptor record (its `cacheToolParameters` is a
no-op in the source: Gemini parameters are captured out-of-band). -/
def geminiFormat : FormatOps GemContent :=
  { name := "gemini",
    cacheToolParameters := fun _ state => state,
    injectSynth := injectSynthGemini,
    trackNewToolResults := fun data tracker prot =>
      trackNewToolResults (geminiToolResultNames data) tracker prot,
    injectPrunableList := injectPrunableListGemini,
    extractToolOutputs := geminiExtractToolOutputs,
    replaceToolOutput := geminiReplaceToolOutput,
    hasToolOutputs := geminiHasToolOutputs }

/-- The handler-relevant configuration: the enabled on-tool strategies, the
protected tool names and the nudge frequency. -/
structure HandlerConfig where
  onToolStrategies : List String
  protectedTools : List String
  nudgeFreq : Nat
deriving Repr

/-- The replacement loop of `handleFormat` (handler.ts lines 85-95): outputs
whose (truthy) tool name is protected are skipped; otherwise an output
whose ID is in the pruned set has its content replaced.  Returns the
replacement count with the updated data array. -/
def handleReplaceLoop (fmt : FormatOps δ) (state : PluginState)
    (protectedToolsLower : List String) (allPrunedIds : List String) :
    List ToolOutput → List δ → Nat × List δ
  | [], data => (0, data)
  | output :: rest, data =>
    let isProtected :=
      match output.toolName with
      | some t => t != "" && protectedToolsLower.contains (jsToLower t)
      | none => false
    if isProtected then
      handleReplaceLoop fmt state protectedToolsLower allPrunedIds rest data
    else if allPrunedIds.contains output.id then
      let r := fmt.replaceToolOutput data output.id PRUNED_CONTENT_MESSAGE state
      let rr := handleReplaceLoop fmt state protectedToolsLower allPrunedIds rest r.2
      ((if r.1 then 1 else 0) + rr.1, rr.2)
    else handleReplaceLoop fmt state protectedToolsLower allPrunedIds rest data

/-- From handler.ts line 56: the nudge is included exactly when the
configured frequency is positive and the tracker's tool-result count
strictly exceeds it. -/
def includeNudgeDecision (nudgeFreq toolResultCount : Nat) : Bool :=
  decide (nudgeFreq > 0) && decide (toolResultCount > nudgeFreq)

/-- The result of `handleFormat` together with the threaded mutable state. -/
structure HandleFormatResult (δ : Type) where
  modified : Bool
  data : List δ
  state : PluginState
  tracker : ToolTracker
  maps : List (String × IdMapping)

/-- From fetch-wrapper/handler.ts: the generic per-request pipeline — cache
tool parameters, inject the synthetic instruction and the prunable list
when on-tool strategies are enabled, then replace the pruned tool outputs.
External effects are inputs: `allSessions` is the session accessor's
answer, and the plugin state is the already-restored one. -/
def handleFormat (fmt : FormatOps δ) (config : HandlerConfig)
    (synthInstruction nudgeInstruction : String)
    (allSessions : List SessionInfo) (state : PluginState)
    (tracker : ToolTracker) (maps : List (String × IdMapping))
    (data : List δ) : HandleFormatResult δ :=
  let state1 := fmt.cacheToolParameters data state
  let phase1 : Bool × List δ × ToolTracker × List (String × IdMapping) :=
    if config.onToolStrategies.length > 0 then
      let rs := fmt.injectSynth data synthInstruction nudgeInstruction
      let modified1 := rs.1
      let data1 := rs.2
      match state1.lastSeenSessionId with
      | some sessionId =>
        let toolIds := state1.toolParameters.map (·.1)
        let alreadyPruned := (state1.prunedIds.lookup sessionId).getD []
        let alreadyPrunedLower := alreadyPruned.map jsToLower
        let unprunedIds :=
          toolIds.filter (fun id => !(alreadyPrunedLower.contains (jsToLower id)))
        let bpl := buildPrunableToolsList sessionId unprunedIds state1.toolParameters
          config.protectedTools maps
        if bpl.1.1 != "" then
          let tr := fmt.trackNewToolResults data1 tracker config.protectedTools
          let includeNudge := includeNudgeDecision config.nudgeFreq tr.2.toolResultCount
          let endInjection := buildEndInjection bpl.1.1 includeNudge
          let ipl := fmt.injectPrunableList data1 endInjection
          if ipl.1 then (true, ipl.2, tr.2, bpl.2)
          else (modified1, ipl.2, tr.2, bpl.2)
        else (modified1, data1, tracker, bpl.2)
      | none => (modified1, data1, tracker, maps)
    else (false, data, tracker, maps)
  let modified := phase1.1
  let data1 := phase1.2.1
  let tracker1 := phase1.2.2.1
  let maps1 := phase1.2.2.2
  if !(fmt.hasToolOutputs data1) then
    { modified := modified, data := data1, state := state1, tracker := tracker1, maps := maps1 }
  else
    let allPrunedIds := getAllPrunedIds allSessions state1
    if allPrunedIds.length == 0 then
      { modified := modified, data := data1, state := state1, tracker := tracker1, maps := maps1 }
    else
      let toolOutputs := fmt.extractToolOutputs data1 state1
      let protectedToolsLower := config.protectedTools.map jsToLower
      let loop := handleReplaceLoop fmt state1 protectedToolsLower allPrunedIds toolOutputs data1
      if loop.1 > 0 then
        { modified := true, data := loop.2, state := state1, tracker := tracker1, maps := maps1 }
      else
        { modified := modified, data := loop.2, state := state1, tracker := tracker1, maps := maps1 }

/-- Modelled from the spec: the fetch-wrapper entry point that invokes the
pipeline — any parse or extraction error raised while processing a request
body is caught there, the pipeline reports unmodified, and the original
body is forwarded (the entry-point module is not among the provided
sources; section 4.5 of the spec gives its failure semantics). -/
def runPipelineSafe {β : Type} (pipeline : β → Except String (Bool × β)) (body : β) :
    Bool × β :=
  match pipeline body with
  | .ok r => r
  | .error _ => (false, body)

-- ============================================================================
-- Janitor (core/janitor.ts) and the idle event hook
-- ============================================================================

/-- Cumulative per-session statistics. -/
structure SessionStats where
  totalToolsPruned : Nat
  totalTokensSaved : Nat
  totalGCTokens : Nat
  totalGCTools : Nat
deriving DecidableEq, Repr

/-- Garbage accumulated by the deduplication pass. -/
structure GCStats where
  tokensCollected : Nat
  toolsDeduped : Nat
deriving DecidableEq, Repr

/-- The state of a transcript tool part (`part.state`). -/
structure TPartState where
  status : String
  output : Option String
  input : Option JParams
deriving DecidableEq, Repr

/-- A transcript message part. -/
structure TPart where
  type : String
  callID : Option String
  tool : String
  stateInfo : TPartState
  parameters : Option JParams
deriving DecidableEq, Repr

/-- Transcript message info (role and agent). -/
structure TInfo where
  role : String
  agent : Option String
deriving DecidableEq, Repr

/-- A transcript message as the session accessor returns it. -/
structure TMsg where
  parts : Option (List TPart)
  info : Option TInfo
deriving DecidableEq, Repr

/-- The result of `parseMessages`. -/
structure ParsedMessages where
  toolCallIds : List String
  toolOutputs : List (String × String)
  toolMetadata : List (String × ToolMeta)
deriving DecidableEq, Repr

/-- The inner loop of janitor `parseMessages` over the parts of one
transcript message. -/
def parseParts (cache : List (String × ToolMeta)) :
    List TPart → ParsedMessages → ParsedMessages
  | [], acc => acc
  | part :: rest, acc =>
    let acc2 :=
      match part.callID with
      | some cid =>
        if part.type == "tool" && truthy part.callID then
          let normalizedId := jsToLower cid
          let cachedData := (cache.lookup cid).orElse (fun _ => cache.lookup normalizedId)
          let parameters :=
            ((cachedData.bind (·.parameters)).orElse
              (fun _ => part.stateInfo.input)).orElse (fun _ => part.parameters)
          let withCall : ParsedMessages :=
            { acc with
              toolCallIds := acc.toolCallIds ++ [normalizedId],
              toolMetadata := mapSet acc.toolMetadata normalizedId
                { tool := part.tool, parameters := parameters } }
          if part.stateInfo.status == "completed" then
            match part.stateInfo.output with
            | some o =>
              if o != "" then
                { withCall with toolOutputs := mapSet withCall.toolOutputs normalizedId o }
              else withCall
            | none => withCall
          else withCall
        else acc
      | none => acc
    parseParts cache rest acc2

/-- From core/janitor.ts: parses the transcript into candidate tool-call
IDs, their outputs and metadata. -/
def parseMessages (messages : List TMsg) (cache : List (String × ToolMeta)) :
    ParsedMessages :=
  messages.foldl (fun acc m =>
    match m.parts with
    | some ps => parseParts cache ps acc
    | none => acc)
    { toolCallIds := [], toolOutputs := [], toolMetadata := [] }

/-- From core/janitor.ts: backward scan for the current agent. -/
def findCurrentAgent (messages : List TMsg) : Option String :=
  (messages.reverse.find? (fun m =>
    match m.info with
    | some info => info.role == "user"
    | none => false)).map (fun m =>
      match m.info with
      | some info => (match info.agent with | some a => if a != "" then a else "build" | none => "build")
      | none => "build")

/-- Janitor-side mutable state (the slices of the plugin state the idle pass
reads and writes). -/
structure JanitorState where
  toolParameters : List (String × ToolMeta)
  prunedIds : List (String × List String)
  stats : List (String × SessionStats)
  gcPending : List (String × GCStats)
deriving DecidableEq, Repr

/-- JS `Map.prototype.delete` on an association list. -/
def mapDelete (l : List (String × α)) (k : String) : List (String × α) :=
  l.filter (fun p => p.1 != k)

/-- The janitor's local `calculateTokensSaved`: sums the estimator over the
outputs of the newly pruned IDs (the token estimator is an external
collaborator passed as a function). -/
def calculateTokensSavedJ (est : String → Nat) (prunedIds : List String)
    (toolOutputs : List (String × String)) : Nat :=
  ((prunedIds.filterMap (fun pid => toolOutputs.lookup (jsToLower pid))).map est).sum

/-- The result record of a janitor pass. -/
structure PruningResult where
  prunedCount : Nat
  tokensSaved : Nat
  llmPrunedIds : List String
  toolMetadata : List (String × ToolMeta)
  sessionStats : SessionStats
deriving DecidableEq, Repr

/-- From core/janitor.ts `runWithStrategies`: the idle-triggered pass.
External effects are inputs: `messages` is the session accessor's bounded
transcript answer (`none` when unavailable), `est` the token estimator,
and `state` the janitor state after `ensureSessionRestored`.  Returns the
pruning result (null modelled as `none`) with the updated state. -/
def runWithStrategies (strategies : List String) (sessionID : String)
    (messages : Option (List TMsg)) (est : String → Nat)
    (state : JanitorState) : Option PruningResult × JanitorState :=
  if strategies.length == 0 then (none, state)
  else
    match messages with
    | none => (none, state)
    | some msgs =>
      if msgs.length < 3 then (none, state)
      else
        let parsed := parseMessages msgs state.toolParameters
        let alreadyPrunedIds := (state.prunedIds.lookup sessionID).getD []
        let unprunedToolCallIds :=
          parsed.toolCallIds.filter (fun id => !(alreadyPrunedIds.contains id))
        let gcPending := state.gcPending.lookup sessionID
        if unprunedToolCallIds.length == 0 && gcPending.isNone then (none, state)
        else
          let llmPrunedIds : List String := []
          let finalNewlyPrunedIds :=
            llmPrunedIds.filter (fun id => !(alreadyPrunedIds.contains id))
          if finalNewlyPrunedIds.length == 0 && gcPending.isNone then (none, state)
          else
            let tokensSaved := calculateTokensSavedJ est finalNewlyPrunedIds parsed.toolOutputs
            let currentStats := (state.stats.lookup sessionID).getD ⟨0, 0, 0, 0⟩
            let sessionStats : SessionStats :=
              { totalToolsPruned := currentStats.totalToolsPruned + finalNewlyPrunedIds.length,
                totalTokensSaved := currentStats.totalTokensSaved + tokensSaved,
                totalGCTokens := currentStats.totalGCTokens +
                  ((gcPending.map (·.tokensCollected)).getD 0),
                totalGCTools := currentStats.totalGCTools +
                  ((gcPending.map (·.toolsDeduped)).getD 0) }
            let state1 := { state with stats := mapSet state.stats sessionID sessionStats }
            let state2 :=
              if gcPending.isSome then
                { state1 with gcPending := mapDelete state1.gcPending sessionID }
              else state1
            if finalNewlyPrunedIds.length == 0 then (none, state2)
            else
              let allPrunedIds := (alreadyPrunedIds ++ llmPrunedIds).foldl setAdd []
              let state3 := { state2 with prunedIds := mapSet state2.prunedIds sessionID allPrunedIds }
              (some { prunedCount := finalNewlyPrunedIds.length,
                      tokensSaved := tokensSaved,
                      llmPrunedIds := llmPrunedIds,
                      toolMetadata := parsed.toolMetadata,
                      sessionStats := sessionStats }, state3)

/-- From index.ts `isSubagentSession`: consults the session accessor for a
parent reference; fails open (not a subagent) on accessor error. -/
def isSubagentSession : Except Unit (Option String) → Bool
  | .ok parentID => truthy parentID
  | .error _ => false

/-- From the index.ts idle event hook: the janitor pass runs exactly when
the subagent check is negative. -/
def idleEventRunsJanitor (sessionGet : Except Unit (Option String)) : Bool :=
  !(isSubagentSession sessionGet)

-- ============================================================================
-- Concrete scenario data
-- ============================================================================

/-- The C2 position map: the first and third grep occurrences are mapped. -/
def gemPositionMapEx : List (String × String) := [("grep:0", "id1"), ("grep:2", "id3")]

/-- Plugin state carrying the C2 position map. -/
def gemStateEx : PluginState :=
  { toolParameters := [], prunedIds := [], googleToolCallMapping := [("sess", gemPositionMapEx)],
    lastSeenSessionId := none }

/-- A Gemini function-response part for tool grep, tagged by `k`. -/
def gemPartEx (k : Nat) : GemPart :=
  { functionResponse := some { name := some "grep", response := .raw k, extra := k },
    text := none, extra := k }

/-- Three Gemini contents carrying grep function responses (occurrence
indices 0, 1, 2). -/
def gemDataEx : List GemContent :=
  [{ role := "model", parts := .arr [gemPartEx 0], extra := 0 },
   { role := "model", parts := .arr [gemPartEx 1], extra := 1 },
   { role := "model", parts := .arr [gemPartEx 2], extra := 2 }]

/-- The part `k` of the C2 data with its response overwritten by the
placeholder. -/
def gemPartExPruned (k : Nat) : GemPart :=
  { functionResponse := some
      { name := some "grep", response := .replaced (some "grep") PRUNED_CONTENT_MESSAGE,
        extra := k },
    text := none, extra := k }

/-- C10 scenario: plugin state where call_1 is pruned for session s1 but no
tool metadata is cached. -/
def uncachedState : PluginState :=
  { toolParameters := [], prunedIds := [("s1", ["call_1"])], googleToolCallMapping := [],
    lastSeenSessionId := none }

/-- C10 scenario: one active session. -/
def oneSessionList : List SessionInfo := [{ id := "s1", parentID := none, title := none }]

/-- C10 scenario: a single tool message for call_1 (the actual tool behind
it is `read`, but nothing was cached). -/
def uncachedToolData : List ChatMsg :=
  [{ role := "tool", content := .other 5, toolCallId := some "call_1", toolCalls := [],
     extra := 7 }]

/-- C10 scenario: handler configuration protecting the `read` tool, with no
on-tool strategies. -/
def protectReadConfig : HandlerConfig :=
  { onToolStrategies := [], protectedTools := ["read"], nudgeFreq := 10 }

/-- C1 scenario: cached metadata for candidates a, b, c — a and c are
`read` of the same file, b reads another file. -/
def dedupMetaEx : List (String × ToolMeta) :=
  [("a", { tool := "read", parameters := some [("filePath", .str "x")] }),
   ("b", { tool := "read", parameters := some [("filePath", .str "y")] }),
   ("c", { tool := "read", parameters := some [("filePath", .str "x")] })]

/-- C8 scenario: a concrete non-empty prunable listing. -/
def prunableListEx : String := "<prunable-tools>\n1: read, x\n</prunable-tools>"

/-- The shape guard under which `injectSynth` is idempotent: the targeted
user turn (the first user non-nudge message of the reversed list) has
string content that either already contains the instruction or stays
distinct from the nudge text after appending, or array content; vacuously
true when no real user turn exists. -/
def injectTargetSafe (instruction nudgeText : String) : List ChatMsg → Bool
  | [] => true
  | m :: rest =>
    if m.role == "user" && !(isNudgeMessage m nudgeText) then
      match m.content with
      | .str s => strIncludes s instruction || (s ++ "\n\n" ++ instruction) != nudgeText
      | .arr _ => true
      | .other _ => false
    else injectTargetSafe instruction nudgeText rest

/-- The complementary shape: the targeted user turn has content that is
neither a string nor an array. -/
def injectTargetOther (nudgeText : String) : List ChatMsg → Bool
  | [] => false
  | m :: rest =>
    if m.role == "user" && !(isNudgeMessage m nudgeText) then
      match m.content with
      | .other _ => true
      | _ => false
    else injectTargetOther nudgeText rest

/-- Frame of an OpenAI/Anthropic message under replacement: everything but
the content is preserved. -/
def chatFrame (m m2 : ChatMsg) : Prop :=
  m2.role = m.role ∧ m2.toolCallId = m.toolCallId ∧ m2.toolCalls = m.toolCalls ∧
    m2.extra = m.extra

/-- Frame of a Gemini content under replacement: role and spread-preserved
fields survive, and a parts array keeps its length. -/
def gemFrame (c c2 : GemContent) : Prop :=
  c2.role = c.role ∧ c2.extra = c.extra ∧
    (match c.parts, c2.parts with
     | .arr ps, .arr ps2 => ps2.length = ps.length
     | .other v, .other v2 => v2 = v
     | _, _ => False)

-- ============================================================================
-- Claim theorems
-- ============================================================================

theorem leadsWith_append (l t : List Char) : leadsWith l (l ++ t) = true := by
  induction l with
  | nil => rfl
  | cons a as ih => simp [leadsWith, ih]

theorem includesChars_append_middle (pre n t : List Char) :
    includesChars n (pre ++ (n ++ t)) = true := by
  induction pre with
  | nil =>
    cases h : n ++ t with
    | nil =>
      rcases List.append_eq_nil.mp h with ⟨hn, _⟩
      subst hn
      rfl
    | cons c cs =>
      simp only [List.nil_append, h, includesChars]
      rw [← h, leadsWith_append]
      simp
  | cons c cs ih =>
    simp only [List.cons_append, includesChars]
    rw [show cs.append (n ++ t) = cs ++ (n ++ t) from rfl, ih]
    simp

theorem strIncludes_middle (a b c : String) :
    strIncludes (a ++ b ++ c) b = true := by
  show includesChars b.data (a ++ b ++ c).data = true
  have h : (a ++ b ++ c).data = a.data ++ (b.data ++ c.data) := by
    rw [String.data_append, String.data_append, List.append_assoc]
  rw [h]
  exact includesChars_append_middle a.data b.data c.data

theorem strIncludes_append_self (a b : String) :
    strIncludes (a ++ b) b = true := by
  have h : a ++ b = a ++ b ++ "" := by simp
  rw [h]
  exact strIncludes_middle a b ""


/-- C2: for the Gemini adapter, extraction and replacement count
function-response occurrences per lowercased tool name identically: with
three grep responses at occurrence indices 0, 1, 2 and the position map
mapping grep:0 to id1 and grep:2 to id3, extraction finds exactly id1 and
id3, replacing id1 overwrites only the first occurrence's response,
replacing id3 overwrites only the third, and the second occurrence is
untouched in both cases. -/
theorem claim_C2_gemini_positional_roundtrip :
    geminiExtractToolOutputs gemDataEx gemStateEx =
      [{ id := "id1", toolName := some "grep" }, { id := "id3", toolName := some "grep" }] ∧
    geminiReplaceToolOutput gemDataEx "id1" PRUNED_CONTENT_MESSAGE gemStateEx =
      (true,
       [{ role := "model", parts := .arr [gemPartExPruned 0], extra := 0 },
        { role := "model", parts := .arr [gemPartEx 1], extra := 1 },
        { role := "model", parts := .arr [gemPartEx 2], extra := 2 }]) ∧
    geminiReplaceToolOutput gemDataEx "id3" PRUNED_CONTENT_MESSAGE gemStateEx =
      (true,
       [{ role := "model", parts := .arr [gemPartEx 0], extra := 0 },
        { role := "model", parts := .arr [gemPartEx 1], extra := 1 },
        { role := "model", parts := .arr [gemPartExPruned 2], extra := 2 }]) := by
  refine ⟨by decide, by decide, by decide⟩

/-- C6: any error raised while the pruning pipeline processes a request
body is caught at the pipeline entry point, which reports unmodified and
forwards the original body, so a pruning failure never blocks the
underlying provider call. -/
theorem claim_C6_pipeline_error_unmodified {β : Type}
    (pipeline : β → Except String (Bool × β)) (body : β) (e : String)
    (h : pipeline body = Except.error e) :
    runPipelineSafe pipeline body = (false, body) := by
  simp [runPipelineSafe, h]

/-- Witness for C6 at a concrete erroring pipeline. -/
theorem claim_C6_witness :
    runPipelineSafe (fun _ : Nat => (Except.error "malformed body" : Except String (Bool × Nat))) 0 =
      (false, 0) :=
  claim_C6_pipeline_error_unmodified (fun _ => Except.error "malformed body") 0 "malformed body" rfl

theorem leadsWith_self (l : List Char) : leadsWith l l = true := by
  have h := leadsWith_append l []
  simpa using h

theorem includesChars_self (l : List Char) : includesChars l l = true := by
  cases l with
  | nil => rfl
  | cons c t => simp [includesChars, leadsWith_self]

theorem strIncludes_self (a : String) : strIncludes a a = true :=
  includesChars_self a.data

theorem injectSynthRev_targetOther (inst nudge : String) (l : List ChatMsg)
    (h : injectTargetOther nudge l = true) :
    injectSynthRev inst nudge l = (true, l) := by
  induction l with
  | nil => simp [injectTargetOther] at h
  | cons m rest ih =>
    by_cases hc : (m.role == "user" && !(isNudgeMessage m nudge)) = true
    · rw [injectTargetOther] at h
      rw [if_pos hc] at h
      cases hcon : m.content with
      | str s => rw [hcon] at h; simp at h
      | arr ps => rw [hcon] at h; simp at h
      | other v => simp [injectSynthRev, hc, hcon]
    · rw [injectTargetOther, if_neg hc] at h
      simp [injectSynthRev, hc, ih h]

/-- C9: when the most recent real user turn's content is neither a string
nor an array, injectSynth reports true without modifying the data array,
and it does so again on a repeated call, so the reported injection is
spurious and the second call does not return false. -/
theorem claim_C9_inject_other_content_spurious_true
    (ms : List ChatMsg) (inst nudge : String)
    (h : injectTargetOther nudge ms.reverse = true) :
    injectSynth ms inst nudge = (true, ms) ∧
    injectSynth (injectSynth ms inst nudge).2 inst nudge = (true, ms) := by
  have h1 : injectSynthRev inst nudge ms.reverse = (true, ms.reverse) :=
    injectSynthRev_targetOther inst nudge ms.reverse h
  have hfst : injectSynth ms inst nudge = (true, ms) := by
    simp [injectSynth, h1]
  refine ⟨hfst, ?_⟩
  rw [hfst]
  exact hfst

/-- Witness for C9: a single user message whose content is some non-string,
non-array value. -/
theorem claim_C9_witness :
    injectSynth
      [{ role := "user", content := .other 0, toolCallId := none, toolCalls := [], extra := 0 }]
      "instruction text" "nudge text" =
      (true,
       [{ role := "user", content := .other 0, toolCallId := none, toolCalls := [], extra := 0 }]) ∧
    injectSynth
      (injectSynth
        [{ role := "user", content := .other 0, toolCallId := none, toolCalls := [], extra := 0 }]
        "instruction text" "nudge text").2 "instruction text" "nudge text" =
      (true,
       [{ role := "user", content := .other 0, toolCallId := none, toolCalls := [], extra := 0 }]) :=
  claim_C9_inject_other_content_spurious_true
    [{ role := "user", content := .other 0, toolCallId := none, toolCalls := [], extra := 0 }]
    "instruction text" "nudge text" (by decide)

theorem injectSynthRev_idem (inst nudge : String) (l : List ChatMsg)
    (h : injectTargetSafe inst nudge l = true) :
    injectSynthRev inst nudge (injectSynthRev inst nudge l).2 =
      (false, (injectSynthRev inst nudge l).2) := by
  induction l with
  | nil => simp [injectSynthRev]
  | cons m rest ih =>
    by_cases hc : (m.role == "user" && !(isNudgeMessage m nudge)) = true
    · rw [injectTargetSafe, if_pos hc] at h
      have hc1 : (m.role == "user") = true := (Bool.and_eq_true .. ▸ hc).1
      cases hcon : m.content with
      | str s =>
        rw [hcon] at h
        by_cases hs : strIncludes s inst = true
        · simp [injectSynthRev, hc, hcon, hs]
        · have hne : ((s ++ "\n\n" ++ inst) == nudge) = false := by
            simp only [Bool.or_eq_true] at h
            rcases h with h | h
            · exact absurd h hs
            · simpa [bne] using h
          have hfirst : injectSynthRev inst nudge (m :: rest) =
              (true, { m with content := .str (s ++ "\n\n" ++ inst) } :: rest) := by
            simp [injectSynthRev, hc, hcon, hs]
          rw [hfirst]
          simp [injectSynthRev, isNudgeMessage, hc1, hne, strIncludes_append_self]
      | arr ps =>
        by_cases hany : ps.any (partHasInstruction inst) = true
        · simp [injectSynthRev, hc, hcon, hany]
        · have hfirst : injectSynthRev inst nudge (m :: rest) =
              (true, { m with content := .arr (ps ++ [mkTextPart inst]) } :: rest) := by
            simp [injectSynthRev, hc, hcon, hany]
          rw [hfirst]
          simp [injectSynthRev, isNudgeMessage, hc1, List.any_append,
            partHasInstruction, mkTextPart, strIncludes_self]
      | other v =>
        rw [hcon] at h
        simp at h
    · rw [injectTargetSafe, if_neg hc] at h
      have hrec := ih h
      simp [injectSynthRev, hc, hrec]

/-- C5: counterexample to the claim as stated — when the most recent real
user turn's content is neither a string nor an array, the second of two
consecutive injectSynth calls still returns true, not false. -/
theorem claim_C5_counterexample :
    (injectSynth
      (injectSynth
        [{ role := "user", content := .other 1, toolCallId := none, toolCalls := [], extra := 0 }]
        "inject me" "nudge me").2
      "inject me" "nudge me").1 = true := by decide

/-- C5 (amended): injectSynth appends the instruction to the most recent
real user turn and is idempotent — the second call returns false and
leaves the array unchanged — provided that turn's content is a string or
an array (not some other value) and, in the string case, the turn does not
collide with the nudge text (it already contains the instruction, or
appending the instruction keeps it distinct from the nudge text). -/
theorem claim_C5_inject_idempotent (ms : List ChatMsg) (inst nudge : String)
    (h : injectTargetSafe inst nudge ms.reverse = true) :
    injectSynth (injectSynth ms inst nudge).2 inst nudge =
      (false, (injectSynth ms inst nudge).2) := by
  have hrev := injectSynthRev_idem inst nudge ms.reverse h
  simp [injectSynth, List.reverse_reverse, hrev]

/-- Witness for C5 at a concrete conversation. -/
theorem claim_C5_witness :
    injectSynth
      (injectSynth
        [{ role := "user", content := .str "hello", toolCallId := none, toolCalls := [], extra := 0 }]
        "please prune" "the nudge").2
      "please prune" "the nudge" =
      (false,
       (injectSynth
         [{ role := "user", content := .str "hello", toolCallId := none, toolCalls := [], extra := 0 }]
         "please prune" "the nudge").2) :=
  claim_C5_inject_idempotent
    [{ role := "user", content := .str "hello", toolCallId := none, toolCalls := [], extra := 0 }]
    "please prune" "the nudge" (by decide)

set_option linter.unnecessarySeqFocus false in
theorem chatReplaceMsg_frame (a b : String) (m : ChatMsg) :
    chatFrame m (chatReplaceMsg a b m).2 := by
  unfold chatReplaceMsg chatFrame
  cases hu : (m.role == "user") <;> cases hcon : m.content <;>
    simp [hcon] <;> split <;> simp <;> split <;> simp

theorem chatReplaceFold_frame (lower p : String) (data : List ChatMsg) :
    List.Forall₂ chatFrame data
      (data.foldr (fun m acc =>
        let r := chatReplaceMsg lower p m
        (r.1 || acc.1, r.2 :: acc.2)) (false, ([] : List ChatMsg))).2 := by
  induction data with
  | nil => simp
  | cons m rest ih =>
    simp only [List.foldr_cons]
    exact List.Forall₂.cons (chatReplaceMsg_frame lower p m) ih

theorem chatFrame_refl (m : ChatMsg) : chatFrame m m := ⟨rfl, rfl, rfl, rfl⟩

theorem gemFrame_refl (c : GemContent) : gemFrame c c := by
  refine ⟨rfl, rfl, ?_⟩
  cases c.parts <;> simp

theorem geminiReplaceParts_length (pm : List (String × String)) (t p : String)
    (ps : List GemPart) (counters : List (String × Nat)) :
    ((geminiReplaceParts pm t p ps counters).1.2).length = ps.length := by
  induction ps generalizing counters with
  | nil => simp [geminiReplaceParts]
  | cons q qs ih => simp [geminiReplaceParts, ih]

theorem geminiReplaceGo_frame (pm : List (String × String)) (t p : String)
    (data : List GemContent) (counters : List (String × Nat)) :
    List.Forall₂ gemFrame data (geminiReplaceGo pm t p data counters).2 := by
  induction data generalizing counters with
  | nil => simp [geminiReplaceGo]
  | cons c rest ih =>
    cases hcon : c.parts with
    | other v =>
      simp only [geminiReplaceGo, hcon]
      exact List.Forall₂.cons (gemFrame_refl c) (ih _)
    | arr ps =>
      simp only [geminiReplaceGo, hcon]
      refine List.Forall₂.cons ?_ (ih _)
      split
      · refine ⟨rfl, rfl, ?_⟩
        simp [hcon, geminiReplaceParts_length]
      · exact gemFrame_refl c

/-- C4: for every adapter in the sources (openai-chat and gemini), every
data array and every tool ID, replaceToolOutput keeps the array length
unchanged and only overwrites the output/content payload of matching
entries, preserving role, call ID and the other surrounding fields — it
never inserts or removes array elements. -/
theorem claim_C4_replace_preserves_shape :
    (∀ (data : List ChatMsg) (toolId msg : String),
      (chatReplaceToolOutput data toolId msg).2.length = data.length ∧
      List.Forall₂ chatFrame data (chatReplaceToolOutput data toolId msg).2) ∧
    (∀ (data : List GemContent) (toolId msg : String) (state : PluginState),
      (geminiReplaceToolOutput data toolId msg state).2.length = data.length ∧
      List.Forall₂ gemFrame data (geminiReplaceToolOutput data toolId msg state).2) := by
  constructor
  · intro data toolId msg
    have hf : List.Forall₂ chatFrame data (chatReplaceToolOutput data toolId msg).2 :=
      chatReplaceFold_frame (jsToLower toolId) msg data
    exact ⟨hf.length_eq.symm, hf⟩
  · intro data toolId msg state
    have hf : List.Forall₂ gemFrame data (geminiReplaceToolOutput data toolId msg state).2 := by
      unfold geminiReplaceToolOutput
      cases hm : firstNonEmptyMapping state.googleToolCallMapping with
      | none =>
        simp only []
        exact (List.forall₂_same).mpr (fun c _ => gemFrame_refl c)
      | some pm => exact geminiReplaceGo_frame pm (jsToLower toolId) msg data []
    exact ⟨hf.length_eq.symm, hf⟩

/-- C7: the idle janitor pass skips entirely — it returns null and leaves
the state untouched — when the retrieved transcript has fewer than 3
messages (or none at all), and a session whose accessor reports a parent
reference never has the idle pass run against it. -/
theorem claim_C7_idle_skip :
    (∀ (strategies : List String) (sessionID : String) (msgs : List TMsg)
        (est : String → Nat) (state : JanitorState),
      msgs.length < 3 →
      runWithStrategies strategies sessionID (some msgs) est state = (none, state)) ∧
    (∀ (strategies : List String) (sessionID : String) (est : String → Nat)
        (state : JanitorState),
      runWithStrategies strategies sessionID none est state = (none, state)) ∧
    (∀ parentID : String, parentID ≠ "" →
      idleEventRunsJanitor (Except.ok (some parentID)) = false) := by
  refine ⟨?_, ?_, ?_⟩
  · intro strategies sessionID msgs est state h
    unfold runWithStrategies
    split
    · rfl
    · simp [h]
  · intro strategies sessionID est state
    unfold runWithStrategies
    split <;> rfl
  · intro parentID h
    simp [idleEventRunsJanitor, isSubagentSession, truthy, h]

/-- Witness for C7: a two-message transcript is skipped and a session with
parent reference blocks the idle pass. -/
theorem claim_C7_witness :
    runWithStrategies ["deduplication"] "sess"
      (some [{ parts := none, info := none }, { parts := none, info := none }])
      (fun _ => 0)
      { toolParameters := [], prunedIds := [], stats := [], gcPending := [] } =
      (none, { toolParameters := [], prunedIds := [], stats := [], gcPending := [] }) ∧
    idleEventRunsJanitor (Except.ok (some "parent_1")) = false :=
  ⟨claim_C7_idle_skip.1 ["deduplication"] "sess"
      [{ parts := none, info := none }, { parts := none, info := none }]
      (fun _ => 0)
      { toolParameters := [], prunedIds := [], stats := [], gcPending := [] } (by decide),
    claim_C7_idle_skip.2.2 "parent_1" (by decide)⟩

/-- C10: in the handler's replacement loop the protected-tool check only
applies when a tool name was resolved from the cached ToolCallRecord — a
tool output with no cached metadata has no tool name, is treated as
unprotected, and its content is replaced with the placeholder when its ID
is pruned, even though the actual tool (`read`) is protected. -/
theorem claim_C10_uncached_metadata_unprotected :
    chatExtractToolOutputs uncachedToolData uncachedState =
      [{ id := "call_1", toolName := none }] ∧
    (handleFormat openaiChatFormat protectReadConfig "synth" "nudge" oneSessionList
        uncachedState createToolTracker [] uncachedToolData).modified = true ∧
    (handleFormat openaiChatFormat protectReadConfig "synth" "nudge" oneSessionList
        uncachedState createToolTracker [] uncachedToolData).data =
      [{ role := "tool", content := .str PRUNED_CONTENT_MESSAGE, toolCallId := some "call_1",
         toolCalls := [], extra := 7 }] := by
  refine ⟨by decide, by decide, by decide⟩

theorem intercalate_pair (s a b : String) : String.intercalate s [a, b] = a ++ s ++ b := rfl

theorem intercalate_triple (s a b c : String) :
    String.intercalate s [a, b, c] = a ++ s ++ b ++ s ++ c := rfl

/-- C8: with nudge frequency 10, the end-of-conversation injection for a
non-empty prunable listing never carries the nudge instruction at a
tracker count of 9 (the injection is exactly the system reminder followed
by the listing) and always carries it at a count of 11; in general the
nudge is included exactly when the frequency is positive and the count
strictly exceeds it. -/
theorem claim_C8_nudge_gating :
    includeNudgeDecision 10 9 = false ∧
    includeNudgeDecision 10 11 = true ∧
    (∀ freq count : Nat, includeNudgeDecision freq count = true ↔ 0 < freq ∧ freq < count) ∧
    (∀ l : String, l ≠ "" →
      buildEndInjection l (includeNudgeDecision 10 9) = SYSTEM_REMINDER ++ "\n\n" ++ l) ∧
    (∀ l : String, l ≠ "" →
      strIncludes (buildEndInjection l (includeNudgeDecision 10 11)) NUDGE_INSTRUCTION = true) ∧
    strIncludes (buildEndInjection prunableListEx (includeNudgeDecision 10 9))
      NUDGE_INSTRUCTION = false := by
  refine ⟨by decide, by decide, ?_, ?_, ?_, by decide⟩
  · intro freq count
    simp [includeNudgeDecision]
  · intro l hl
    have hb : (l == "") = false := beq_eq_false_iff_ne.mpr hl
    simp only [buildEndInjection, hb, Bool.false_eq_true, if_false]
    norm_num [includeNudgeDecision, intercalate_pair]
  · intro l hl
    have hb : (l == "") = false := beq_eq_false_iff_ne.mpr hl
    have hn : includeNudgeDecision 10 11 = true := by decide
    simp only [buildEndInjection, hb, Bool.false_eq_true, if_false, hn, if_true]
    rw [show ([SYSTEM_REMINDER] ++ [NUDGE_INSTRUCTION] ++ [l]) = [SYSTEM_REMINDER, NUDGE_INSTRUCTION, l] from rfl]
    rw [intercalate_triple]
    rw [String.append_assoc (SYSTEM_REMINDER ++ "\n\n" ++ NUDGE_INSTRUCTION) "\n\n" l]
    exact strIncludes_middle (SYSTEM_REMINDER ++ "\n\n") NUDGE_INSTRUCTION ("\n\n" ++ l)

/-- Witness for C8 at the concrete listing. -/
theorem claim_C8_witness :
    buildEndInjection prunableListEx (includeNudgeDecision 10 9) =
      SYSTEM_REMINDER ++ "\n\n" ++ prunableListEx ∧
    strIncludes (buildEndInjection prunableListEx (includeNudgeDecision 10 11))
      NUDGE_INSTRUCTION = true :=
  ⟨claim_C8_nudge_gating.2.2.2.1 prunableListEx (by decide),
   claim_C8_nudge_gating.2.2.2.2.1 prunableListEx (by decide)⟩

theorem lookup_append_left {α β : Type} [BEq α] (l₁ l₂ : List (α × β)) (a : α) (v : β)
    (h : l₁.lookup a = some v) : (l₁ ++ l₂).lookup a = some v := by
  induction l₁ with
  | nil => simp [List.lookup] at h
  | cons p rest ih =>
    rcases p with ⟨k, b⟩
    simp only [List.lookup, List.cons_append] at h ⊢
    cases hk : (a == k) with
    | true => rw [hk] at h; simpa [hk] using h
    | false => rw [hk] at h; simpa [hk] using ih h

theorem lookup_append_single_ne {α β : Type} [BEq α] (l : List (α × β)) (a k : α) (v : β)
    (h : l.lookup a = none) (hne : (a == k) = false) :
    (l ++ [(k, v)]).lookup a = none := by
  induction l with
  | nil => simp [List.lookup, hne]
  | cons p rest ih =>
    rcases p with ⟨k₁, b₁⟩
    simp only [List.lookup, List.cons_append] at h ⊢
    cases hk : (a == k₁) with
    | true => rw [hk] at h; simp at h
    | false => rw [hk] at h; simpa [hk] using ih h

theorem lookup_none_of_bounded (l : List (Nat × String)) (x : Nat)
    (h : ∀ q ∈ l, q.1 < x) : l.lookup x = none := by
  induction l with
  | nil => rfl
  | cons p rest ih =>
    rcases p with ⟨k, s⟩
    have hk : k < x := h (k, s) (by simp)
    have hne : (x == k) = false := by
      simp only [beq_eq_false_iff_ne]
      omega
    simp only [List.lookup, hne]
    exact ih (fun q hq => h q (by simp [hq]))

theorem runIds_fresh (ids : List String) : ∀ m : IdMapping,
    ids.Nodup → (∀ a ∈ ids, m.actualToNumeric.lookup a = none) →
    (runIds m ids).1 = List.range' m.nextId ids.length := by
  induction ids with
  | nil => intro m _ _; rfl
  | cons a rest ih =>
    intro m hnd hfresh
    have ha : m.actualToNumeric.lookup a = none := hfresh a (by simp)
    have hstep : getOrCreateNumericId m a =
        (m.nextId,
         { numericToActual := m.numericToActual ++ [(m.nextId, a)],
           actualToNumeric := m.actualToNumeric ++ [(a, m.nextId)],
           nextId := m.nextId + 1 }) := by
      simp [getOrCreateNumericId, ha]
    have hnotmem : a ∉ rest := (List.nodup_cons.mp hnd).1
    have hrest : ∀ b ∈ rest,
        (m.actualToNumeric ++ [(a, m.nextId)]).lookup b = none := by
      intro b hb
      have hbne : (b == a) = false := by
        simp only [beq_eq_false_iff_ne]
        intro hba
        exact hnotmem (hba ▸ hb)
      exact lookup_append_single_ne _ _ _ _ (hfresh b (by simp [hb])) hbne
    have hihres := ih
      { numericToActual := m.numericToActual ++ [(m.nextId, a)],
        actualToNumeric := m.actualToNumeric ++ [(a, m.nextId)],
        nextId := m.nextId + 1 }
      (List.nodup_cons.mp hnd).2 hrest
    simp only [runIds, hstep] at hihres ⊢
    rw [hihres]
    rfl

/-- C3: for every session registry, a sequence of distinct actual IDs
presented in order receives the numeric IDs 1, 2, 3, ... in first-seen
order; presenting an already-seen actual ID returns the previously
assigned number without changing any mapping; existing pairs in both
directions survive every further assignment, and a fresh assignment uses
a numeric ID that was never assigned before (monotone `nextId` bound). -/
theorem claim_C3_numeric_id_stability :
    (∀ ids : List String, ids.Nodup →
      (runIds emptyIdMapping ids).1 = List.range' 1 ids.length) ∧
    (∀ (m : IdMapping) (a : String) (n : Nat),
      getNumericId m a = some n → getOrCreateNumericId m a = (n, m)) ∧
    (∀ (m : IdMapping) (a b : String) (k : Nat),
      getNumericId m b = some k →
      getNumericId (getOrCreateNumericId m a).2 b = some k) ∧
    (∀ (m : IdMapping) (a : String) (k : Nat) (s : String),
      getActualId m k = some s →
      getActualId (getOrCreateNumericId m a).2 k = some s) ∧
    (∀ (m : IdMapping) (a : String),
      (∀ q ∈ m.numericToActual, q.1 < m.nextId) → getNumericId m a = none →
      getActualId m (getOrCreateNumericId m a).1 = none ∧
      (∀ q ∈ (getOrCreateNumericId m a).2.numericToActual,
        q.1 < (getOrCreateNumericId m a).2.nextId)) := by
  refine ⟨?_, ?_, ?_, ?_, ?_⟩
  · intro ids hnd
    exact runIds_fresh ids emptyIdMapping hnd (fun a _ => rfl)
  · intro m a n h
    unfold getNumericId at h
    simp [getOrCreateNumericId, h]
  · intro m a b k h
    unfold getNumericId at h ⊢
    unfold getOrCreateNumericId
    cases ha : m.actualToNumeric.lookup a with
    | some n => simpa [ha] using h
    | none => simpa [ha] using lookup_append_left _ _ _ _ h
  · intro m a k s h
    unfold getActualId at h ⊢
    unfold getOrCreateNumericId
    cases ha : m.actualToNumeric.lookup a with
    | some n => simpa [ha] using h
    | none => simpa [ha] using lookup_append_left _ _ _ _ h
  · intro m a hwf hnone
    unfold getNumericId at hnone
    constructor
    · unfold getActualId getOrCreateNumericId
      simp only [hnone]
      exact lookup_none_of_bounded _ _ hwf
    · unfold getOrCreateNumericId
      simp only [hnone]
      intro q hq
      simp only [List.mem_append, List.mem_singleton] at hq
      rcases hq with hq | hq
      · have := hwf q hq
        omega
      · subst hq
        omega

/-- Witness for C3: three distinct IDs get 1, 2, 3, and a repeat lookup
returns the existing assignment unchanged. -/
theorem claim_C3_witness :
    (runIds emptyIdMapping ["x", "y", "z"]).1 = List.range' 1 3 ∧
    getOrCreateNumericId (runIds emptyIdMapping ["x", "y", "z"]).2 "y" =
      (2, (runIds emptyIdMapping ["x", "y", "z"]).2) :=
  ⟨claim_C3_numeric_id_stability.1 ["x", "y", "z"] (by decide),
   claim_C3_numeric_id_stability.2.1 (runIds emptyIdMapping ["x", "y", "z"]).2 "y" 2 (by decide)⟩

theorem dedupGo_cons_none (f : String → Option (String × Option JParams)) (p : String → Bool)
    (a : String) (rest : List String) (h : f a = none) :
    dedupGo f p (a :: rest) = dedupGo f p rest := by
  simp [dedupGo, h]

theorem dedupGo_cons_some_pos (f : String → Option (String × Option JParams)) (p : String → Bool)
    (a : String) (rest : List String) (s : String × Option JParams) (h : f a = some s)
    (hc : (!p a && rest.any (fun d => decide (f d = some s))) = true) :
    dedupGo f p (a :: rest) = a :: dedupGo f p rest := by
  simp only [dedupGo, h, hc, if_true]

theorem dedupGo_cons_some_neg (f : String → Option (String × Option JParams)) (p : String → Bool)
    (a : String) (rest : List String) (s : String × Option JParams) (h : f a = some s)
    (hc : (!p a && rest.any (fun d => decide (f d = some s))) = false) :
    dedupGo f p (a :: rest) = dedupGo f p rest := by
  simp only [dedupGo, h, hc, Bool.false_eq_true, if_false]

theorem dedupGo_mem (f : String → Option (String × Option JParams)) (p : String → Bool)
    (l : List String) (c : String) :
    c ∈ dedupGo f p l ↔
      ∃ l₁ l₂, l = l₁ ++ c :: l₂ ∧
        ∃ s, f c = some s ∧ p c = false ∧
          l₂.any (fun d => decide (f d = some s)) = true := by
  induction l with
  | nil => simp [dedupGo]
  | cons a rest ih =>
    have tail_case : c ∈ dedupGo f p rest →
        ∃ l₁ l₂, a :: rest = l₁ ++ c :: l₂ ∧
          ∃ s, f c = some s ∧ p c = false ∧
            l₂.any (fun d => decide (f d = some s)) = true := by
      intro hmem
      rcases ih.mp hmem with ⟨l₁, l₂, heq, s, hfc, hpc, hany⟩
      exact ⟨a :: l₁, l₂, by simp [heq], s, hfc, hpc, hany⟩
    constructor
    · intro hc
      cases hfa : f a with
      | none =>
        rw [dedupGo_cons_none f p a rest hfa] at hc
        exact tail_case hc
      | some s0 =>
        cases hcond : (!p a && rest.any (fun d => decide (f d = some s0))) with
        | true =>
          rw [dedupGo_cons_some_pos f p a rest s0 hfa hcond] at hc
          rcases List.mem_cons.mp hc with hca | hmem
          · subst hca
            refine ⟨[], rest, rfl, s0, hfa, ?_, ?_⟩
            · have h1 := (Bool.and_eq_true .. ▸ hcond).1
              simpa using h1
            · exact (Bool.and_eq_true .. ▸ hcond).2
          · exact tail_case hmem
        | false =>
          rw [dedupGo_cons_some_neg f p a rest s0 hfa hcond] at hc
          exact tail_case hc
    · rintro ⟨l₁, l₂, heq, s, hfc, hpc, hany⟩
      cases l₁ with
      | nil =>
        simp only [List.nil_append, List.cons.injEq] at heq
        obtain ⟨hac, hrest⟩ := heq
        rw [hac]
        have hcond : (!p c && rest.any (fun d => decide (f d = some s))) = true := by
          rw [hrest]
          simp [hpc, hany]
        rw [dedupGo_cons_some_pos f p c rest s hfc hcond]
        exact List.mem_cons_self c _
      | cons x l₁x =>
        simp only [List.cons_append, List.cons.injEq] at heq
        obtain ⟨hax, hrest⟩ := heq
        have hmem : c ∈ dedupGo f p rest :=
          ih.mpr ⟨l₁x, l₂, hrest, s, hfc, hpc, hany⟩
        cases hfa : f a with
        | none =>
          rw [dedupGo_cons_none f p a rest hfa]
          exact hmem
        | some s0 =>
          cases hcond : (!p a && rest.any (fun d => decide (f d = some s0))) with
          | true =>
            rw [dedupGo_cons_some_pos f p a rest s0 hfa hcond]
            exact List.mem_cons_of_mem a hmem
          | false =>
            rw [dedupGo_cons_some_neg f p a rest s0 hfa hcond]
            exact hmem

/-- C1: with no protected tools and chronological candidates a, b, c where
a and c are the same read("x") call and b is read("y"), the deduplication
strategy prunes exactly a (the earlier duplicate), keeping b and c — also
when run through the strategy runner; and in general an ID is emitted as
pruned exactly when it has cached metadata, its tool is not protected, and
a chronologically later candidate carries the same (toolName, canonical
parameters) signature, so within every duplicate group only the last ID is
retained and all earlier ones are emitted. -/
theorem claim_C1_deduplication_detect :
    deduplicationDetect dedupMetaEx ["a", "b", "c"] [] = ["a"] ∧
    (runStrategies dedupMetaEx ["a", "b", "c"] [] none).prunedIds = ["a"] ∧
    (∀ (f : String → Option (String × Option JParams)) (p : String → Bool)
        (l : List String) (c : String),
      c ∈ dedupGo f p l ↔
        ∃ l₁ l₂, l = l₁ ++ c :: l₂ ∧
          ∃ s, f c = some s ∧ p c = false ∧
            l₂.any (fun d => decide (f d = some s)) = true) :=
  ⟨by decide, by decide, dedupGo_mem⟩
